import Mathlib

/-!
Shallow embedding of the ingest server `src/audioTest/main.py` of the
audioTest repository: the session metadata store (`load_meta`/`save_meta`),
the fail-open decision client (`send_to_judge`), the stream assembler
(`build_final_wav`) and the upload route (`upload_chunk`).

Machine-level side effects are made explicit: the per-session directory is a
`Disk` value threaded through the functions, the external ffmpeg transcoder
is an oracle `tOk : FragFile → Bool` (deterministic success/failure per
fragment) with error detail `tErr : FragFile → String`, the decision
authority round-trip is the value `judgeResp` describing the HTTP response
(or a raised transport exception), and the final-submission acknowledgment
is the oracle `finalAck : Bool`.  Python strings compare lexicographically
by code point, exactly as Lean `String`s do.
-/

namespace AudioTest

/-- Lexicographic (code-point) comparison of character lists: this is how
Python compares strings with `<=` (a strict prefix is smaller; otherwise
the first differing code point decides). -/
def charListLe : List Char → List Char → Bool
  | [], _ => true
  | _ :: _, [] => false
  | c :: cs, d :: ds =>
    if c.toNat < d.toNat then true
    else if d.toNat < c.toNat then false
    else charListLe cs ds

/-- Python string `<=`: lexicographic by code point. -/
def strLe (a b : String) : Bool := charListLe a.data b.data

/-- `cs` starts with the character list `pre`. -/
def charsLeadWith : List Char → List Char → Bool
  | _, [] => true
  | [], _ :: _ => false
  | c :: cs, d :: ds => decide (c = d) && charsLeadWith cs ds

/-- Python `s.startswith(pre)`. -/
def strStartsWith (s pre : String) : Bool := charsLeadWith s.data pre.data

/-- Python `s.lower()` (ASCII case folding suffices for the strings the
server compares: decision values and file extensions). -/
def strToLower (s : String) : String := ⟨s.data.map Char.toLower⟩

/-- Decidable equality for `Except`, used to evaluate assembly results on
concrete inputs. -/
instance {ε α : Type} [DecidableEq ε] [DecidableEq α] : DecidableEq (Except ε α) :=
  fun x y =>
    match x, y with
    | .error a, .error b =>
      if h : a = b then isTrue (congrArg Except.error h)
      else isFalse (fun hh => h (by injection hh))
    | .ok a, .ok b =>
      if h : a = b then isTrue (congrArg Except.ok h)
      else isFalse (fun hh => h (by injection hh))
    | .error _, .ok _ => isFalse (fun hh => by injection hh)
    | .ok _, .error _ => isFalse (fun hh => by injection hh)

/-- Session lifecycle states: `{"state": "waiting" | "recording" | "ended"}`. -/
inductive SessState
| waiting
| recording
| ended
deriving DecidableEq, Repr

/-- `meta.json` content: `{"state": ..., "start_seq": ..., "end_seq": ...}`. -/
structure SessionMeta where
  state : SessState
  start_seq : Option String
  end_seq : Option String
deriving DecidableEq, Repr

/-- A file `stem.ext` in the session directory (a raw fragment is
`{seq}.{ogg|webm}` as written by `upload_chunk`). -/
structure FragFile where
  stem : String
  ext : String
deriving DecidableEq, Repr

/-- `p.name` in Python: the full file name `stem.ext`. -/
def FragFile.fname (p : FragFile) : String := p.stem ++ "." ++ p.ext

/-- The per-session directory state:
raw fragment files, the `wav/` cache of normalized segments (by stem),
the `final.wav` content (modelled as the list of concatenated segment
stems), the `meta.json` record, and an append-only log of every
normalization invocation of the external transcoder (`run_ffmpeg` on a
fragment). -/
structure Disk where
  frags : List FragFile
  wavCache : List String
  finalWav : Option (List String)
  meta : SessionMeta
  ffmpegLog : List FragFile
deriving DecidableEq, Repr

/-- The decision authority's HTTP response as seen by `send_to_judge`:
status code, `content-type` header, and the parsed JSON body.
`jsonDecision = none` means `resp.json()` raises (body is not JSON);
`jsonDecision = some d` means the body parsed and `d` is the string value
of `str(js.get("decision", ""))` (with `d = ""` when the field is absent). -/
structure HttpResp where
  status : Nat
  contentType : String
  jsonDecision : Option (Option String)
deriving DecidableEq, Repr

/-- `send_to_judge` (main.py:71-87).  A transport failure or timeout is the
`Except.error` case; every path returns one of the strings
`"continue"`, `"start"`, `"end"` and no exception escapes (the function is
total by construction, mirroring the catch-all `except`). -/
def send_to_judge (r : Except Unit HttpResp) : String :=
  match r with
  | .error _ => "continue"
  | .ok resp =>
    if resp.status = 204 then "continue"
    else if strStartsWith resp.contentType "application/json" then
      match resp.jsonDecision with
      | none => "continue"
      | some js =>
        let dec := strToLower (js.getD "")
        if dec = "start" ∨ dec = "end" then dec else "continue"
    else "continue"

/-- `p.suffix.lower() in (".ogg", ".webm")` (main.py:111). -/
def supportedExt (e : String) : Bool :=
  decide (strToLower e = "ogg") || decide (strToLower e = "webm")

/-- `sorted(d.iterdir())`: directory entries in ascending file-name order. -/
def sortFiles (l : List FragFile) : List FragFile :=
  List.insertionSort (fun a b => strLe a.fname b.fname = true) l

/-- `sorted(converted, key=lambda x: x.stem)`: wav stems in ascending
lexicographic order. -/
def sortStems (l : List String) : List String :=
  List.insertionSort (fun a b => strLe a b = true) l

/-- `sorted(d.iterdir())` followed by the suffix and
`start_seq <= p.stem <= end_seq` filters (main.py:110-113): the raw
fragments of a supported container whose seq is in the inclusive
lexicographic range, in file-name order. -/
def listParts (frags : List FragFile) (s e : String) : List FragFile :=
  (sortFiles frags).filter
    (fun p => supportedExt p.ext && strLe s p.stem && strLe p.stem e)

/-- Result of the per-fragment conversion loop (main.py:122-137). -/
structure ProcOut where
  converted : List String
  skipped : List (String × String)
  invoked : List FragFile
  cache : List String
deriving DecidableEq, Repr

/-- The conversion loop (main.py:122-137): for each part, if its `.wav`
already exists reuse it; otherwise invoke ffmpeg (logged in `invoked`),
adding the wav on success and recording `(p.name, str(error))` in the skip
list on failure.  `converted` holds the stems of the collected wavs in
loop order; `cache` is the wav directory after the loop. -/
def processParts (tOk : FragFile → Bool) (tErr : FragFile → String) :
    List FragFile → List String → ProcOut
  | [], cache => ⟨[], [], [], cache⟩
  | p :: rest, cache =>
    if decide (p.stem ∈ cache) then
      let r := processParts tOk tErr rest cache
      ⟨p.stem :: r.converted, r.skipped, r.invoked, r.cache⟩
    else if tOk p then
      let r := processParts tOk tErr rest (cache ++ [p.stem])
      ⟨p.stem :: r.converted, r.skipped, p :: r.invoked, r.cache⟩
    else
      let r := processParts tOk tErr rest cache
      ⟨r.converted, (p.fname, tErr p) :: r.skipped, p :: r.invoked, r.cache⟩

/-- The three `RuntimeError`s of `build_final_wav`. -/
inductive BuildErr
| notReady
| emptyRange
| totalDecodeFailure
deriving DecidableEq, Repr

/-- The exact exception messages (main.py:105, 115, 140). -/
def BuildErr.msg : BuildErr → String
  | .notReady => "start/end not decided yet"
  | .emptyRange => "no chunks in selected range"
  | .totalDecodeFailure =>
      "no chunk could be decoded; prefer Ogg/Opus or ensure full WebM fragments."

/-- `build_final_wav` (main.py:101-157).  Returns the updated disk and
either an error or `(segments of final.wav, skipped)`.  The concat step
re-sorts the converted wavs by stem and defensively re-filters them by the
same range before the stream-copy concatenation; the concat ffmpeg run
itself performs no per-fragment normalization and is not logged. -/
def build_final_wav (tOk : FragFile → Bool) (tErr : FragFile → String)
    (disk : Disk) : Disk × Except BuildErr (List String × List (String × String)) :=
  match disk.meta.start_seq, disk.meta.end_seq with
  | some s, some e =>
    let parts := listParts disk.frags s e
    if parts = [] then (disk, .error .emptyRange)
    else
      let r := processParts tOk tErr parts disk.wavCache
      if r.converted = [] then
        ({ disk with wavCache := r.cache, ffmpegLog := disk.ffmpegLog ++ r.invoked },
         .error .totalDecodeFailure)
      else
        let segs := (sortStems r.converted).filter (fun st => strLe s st && strLe st e)
        ({ disk with
            wavCache := r.cache,
            ffmpegLog := disk.ffmpegLog ++ r.invoked,
            finalWav := some segs },
         .ok (segs, r.skipped))
  | _, _ => (disk, .error .notReady)

/-- The JSON bodies `upload_chunk` can answer with:
`{"decision": d}`, `{"decision": "end", "finalSent": ok, "skipped": [...]}`
or the 500 response `{"error": "upload_failed", "detail": ...}`. -/
inductive UploadResp
| decision (d : String)
| endResp (finalSent : Bool) (skipped : List (String × String))
| uploadFailed (detail : String)
deriving DecidableEq, Repr

/-- Result of one `upload_chunk` request, with the observable effects made
explicit: the disk afterwards, the JSON response, and whether the decision
authority, the assembler and the final submission were invoked. -/
structure UploadOutcome where
  disk : Disk
  resp : UploadResp
  judgeCalled : Bool
  assembleCalled : Bool
  finalSendCalled : Bool
deriving DecidableEq, Repr

/-- `ext = "ogg" if container == "ogg" else "webm"` (main.py:175). -/
def extOf (container : String) : String :=
  if container = "ogg" then "ogg" else "webm"

/-- Writing `{seq}.{ext}` into the session directory (main.py:176-178);
re-uploading the same name overwrites in place (bytes are not modelled). -/
def persistFrag (disk : Disk) (p : FragFile) : Disk :=
  if p ∈ disk.frags then disk else { disk with frags := disk.frags ++ [p] }

/-- `upload_chunk` (main.py:166-204): persist the fragment, short-circuit
with `continue` when the session already ended, otherwise ask the judge and
apply the verdict; an `end` verdict saves the ended metadata first, then
assembles and submits; any exception from assembly becomes the 500
`upload_failed` response (after the metadata was already saved). -/
def upload_chunk (tOk : FragFile → Bool) (tErr : FragFile → String)
    (finalAck : Bool) (disk : Disk) (seq container : String)
    (judgeResp : Except Unit HttpResp) : UploadOutcome :=
  let d₁ := persistFrag disk ⟨seq, extOf container⟩
  if d₁.meta.state = .ended then
    ⟨d₁, .decision "continue", false, false, false⟩
  else
    let dec := send_to_judge judgeResp
    if dec = "start" ∧ d₁.meta.state = .waiting then
      ⟨{ d₁ with meta := ⟨.recording, some seq, d₁.meta.end_seq⟩ },
       .decision dec, true, false, false⟩
    else if dec = "end" then
      let d₂ := { d₁ with meta := ⟨.ended, d₁.meta.start_seq, some seq⟩ }
      match build_final_wav tOk tErr d₂ with
      | (d₃, .ok (_, skipped)) => ⟨d₃, .endResp finalAck skipped, true, true, true⟩
      | (d₃, .error err) => ⟨d₃, .uploadFailed err.msg, true, true, false⟩
    else
      ⟨d₁, .decision dec, true, false, false⟩

/-- One `upload_chunk` request with its own environment oracles. -/
structure Call where
  seq : String
  container : String
  judgeResp : Except Unit HttpResp
  tOk : FragFile → Bool
  tErr : FragFile → String
  finalAck : Bool

/-- Running a sequence of `upload_chunk` requests against a session disk. -/
def runUploads : Disk → List Call → Disk
  | d, [] => d
  | d, c :: cs =>
      runUploads (upload_chunk c.tOk c.tErr c.finalAck d c.seq c.container c.judgeResp).disk cs

/-- The session directory right after the `/start` route (main.py:160-164):
fresh metadata `{waiting, null, null}` and nothing else. -/
def initDisk : Disk := ⟨[], [], none, ⟨.waiting, none, none⟩, []⟩

/-- A fragment normalizes without an ffmpeg invocation error: its wav is
already cached or the transcoder succeeds on it. -/
def normOk (cache : List String) (tOk : FragFile → Bool) (p : FragFile) : Bool :=
  decide (p.stem ∈ cache) || tOk p

/-- Whether a JSON response of `upload_chunk` carries a `decision` field. -/
def respHasDecision : UploadResp → Bool
  | .decision _ => true
  | .endResp _ _ => true
  | .uploadFailed _ => false

/-- The session-metadata transition applied by one `upload_chunk` request
(main.py:180-194), as a function of the verdict string. -/
def metaStep (m : SessionMeta) (seq : String) (dec : String) : SessionMeta :=
  if m.state = .ended then m
  else if dec = "start" ∧ m.state = .waiting then ⟨.recording, some seq, m.end_seq⟩
  else if dec = "end" then ⟨.ended, m.start_seq, some seq⟩
  else m

/-- Reachability invariant of the session metadata: a `waiting` session has
no start boundary yet, and an end boundary only exists on an `ended`
session. -/
def MetaInv (m : SessionMeta) : Prop :=
  (m.state = .waiting → m.start_seq = none) ∧ (m.end_seq ≠ none → m.state = .ended)

/-! ### Concrete fixtures used to evaluate the theorems on closed inputs -/

/-- Eight sequential ogg fragments 001..008, as in the end-to-end scenario. -/
def demoFrags : List FragFile :=
  [⟨"001", "ogg"⟩, ⟨"002", "ogg"⟩, ⟨"003", "ogg"⟩, ⟨"004", "ogg"⟩,
   ⟨"005", "ogg"⟩, ⟨"006", "ogg"⟩, ⟨"007", "ogg"⟩, ⟨"008", "ogg"⟩]

/-- A recording session holding `demoFrags` with boundaries 003..007. -/
def demoDisk : Disk := ⟨demoFrags, [], none, ⟨.recording, some "003", some "007"⟩, []⟩

/-- Like `demoDisk` but with a previously assembled final output on disk. -/
def demoDiskPrev : Disk := ⟨demoFrags, [], some ["prev"], ⟨.recording, some "003", some "007"⟩, []⟩

/-- A session disk whose metadata already reached the terminal state. -/
def endedDisk : Disk := ⟨[], [], none, ⟨.ended, some "001", some "002"⟩, []⟩

/-- A judge HTTP response carrying the decision `start`. -/
def judgeStart : Except Unit HttpResp := .ok ⟨200, "application/json", some (some "start")⟩

/-- A judge HTTP response carrying the decision `end`. -/
def judgeEnd : Except Unit HttpResp := .ok ⟨200, "application/json", some (some "end")⟩

/-- An upload request whose judge round-trip decides `start`. -/
def callStart : Call := ⟨"001", "ogg", judgeStart, fun _ => true, fun _ => "", true⟩

/-- An upload request whose judge round-trip fails in transport. -/
def callCont : Call := ⟨"002", "ogg", .error (), fun _ => true, fun _ => "", true⟩

/-! ### Order facts about the lexicographic comparison -/

theorem charListLe_total : ∀ x y : List Char, charListLe x y = true ∨ charListLe y x = true
  | [], _ => .inl rfl
  | _ :: _, [] => .inr rfl
  | c :: cs, d :: ds => by
    simp only [charListLe]
    rcases Nat.lt_trichotomy c.toNat d.toNat with h | h | h
    · left
      simp [h]
    · have h1 : ¬ c.toNat < d.toNat := by omega
      have h2 : ¬ d.toNat < c.toNat := by omega
      simpa [h1, h2] using charListLe_total cs ds
    · right
      simp [h]

theorem charListLe_trans : ∀ x y z : List Char, charListLe x y = true → charListLe y z = true →
    charListLe x z = true
  | [], _, _, _, _ => rfl
  | _ :: _, [], _, h, _ => by simp [charListLe] at h
  | _ :: _, _ :: _, [], _, h => by simp [charListLe] at h
  | c :: cs, d :: ds, e :: es, h1, h2 => by
    simp only [charListLe] at h1 h2 ⊢
    split_ifs at h1 h2 ⊢ <;> try rfl
    all_goals first
      | omega
      | (exact charListLe_trans cs ds es h1 h2)

instance : IsTotal String (fun a b => strLe a b = true) :=
  ⟨fun a b => charListLe_total a.data b.data⟩

instance : IsTrans String (fun a b => strLe a b = true) :=
  ⟨fun a b c => charListLe_trans a.data b.data c.data⟩

/-! ### Characterizations of the conversion loop -/

theorem processParts_spec (tOk : FragFile → Bool) (tErr : FragFile → String) :
    ∀ (parts : List FragFile) (cache : List String),
      (parts.map FragFile.stem).Nodup →
      processParts tOk tErr parts cache =
        ⟨(parts.filter (normOk cache tOk)).map FragFile.stem,
         (parts.filter (fun p => !normOk cache tOk p)).map (fun p => (p.fname, tErr p)),
         parts.filter (fun p => !decide (p.stem ∈ cache)),
         cache ++ (parts.filter (fun p => !decide (p.stem ∈ cache) && tOk p)).map FragFile.stem⟩
  | [], cache, _ => by simp [processParts]
  | p :: rest, cache, hnd => by
    rw [List.map_cons, List.nodup_cons] at hnd
    obtain ⟨hp, hrest⟩ := hnd
    have hne : ∀ q ∈ rest, q.stem ≠ p.stem := by
      intro q hq hEq
      exact hp (hEq ▸ List.mem_map_of_mem FragFile.stem hq)
    by_cases hc : p.stem ∈ cache
    · rw [processParts, if_pos (by simpa using hc), processParts_spec tOk tErr rest cache hrest]
      simp [normOk, hc, List.filter_cons]
    · by_cases ht : tOk p = true
      · rw [processParts, if_neg (by simpa using hc), if_pos ht,
          processParts_spec tOk tErr rest (cache ++ [p.stem]) hrest]
        have hfilt1 : rest.filter (normOk (cache ++ [p.stem]) tOk) = rest.filter (normOk cache tOk) := by
          apply List.filter_congr
          intro q hq
          simp [normOk, List.mem_append, hne q hq]
        have hfilt2 : rest.filter (fun q => !normOk (cache ++ [p.stem]) tOk q)
            = rest.filter (fun q => !normOk cache tOk q) := by
          apply List.filter_congr
          intro q hq
          simp [normOk, List.mem_append, hne q hq]
        have hfilt3 : rest.filter (fun q => !decide (q.stem ∈ cache ++ [p.stem]))
            = rest.filter (fun q => !decide (q.stem ∈ cache)) := by
          apply List.filter_congr
          intro q hq
          simp [List.mem_append, hne q hq]
        have hfilt4 : rest.filter (fun q => !decide (q.stem ∈ cache ++ [p.stem]) && tOk q)
            = rest.filter (fun q => !decide (q.stem ∈ cache) && tOk q) := by
          apply List.filter_congr
          intro q hq
          simp [List.mem_append, hne q hq]
        rw [hfilt1, hfilt2, hfilt3, hfilt4]
        simp [normOk, hc, ht, List.filter_cons, List.append_assoc]
      · rw [processParts, if_neg (by simpa using hc), if_neg (by simp [ht]),
          processParts_spec tOk tErr rest cache hrest]
        simp [normOk, hc, ht, List.filter_cons]

theorem processParts_allFail (tOk : FragFile → Bool) (tErr : FragFile → String) :
    ∀ (parts : List FragFile) (cache : List String),
      (∀ p ∈ parts, normOk cache tOk p = false) →
      processParts tOk tErr parts cache =
        ⟨[], parts.map (fun p => (p.fname, tErr p)), parts, cache⟩
  | [], cache, _ => by simp [processParts]
  | p :: rest, cache, hall => by
    have hp := hall p (by simp)
    have hc : p.stem ∉ cache := by
      intro h
      simp [normOk, h] at hp
    have ht : tOk p = false := by
      rcases Bool.eq_false_or_eq_true (tOk p) with h | h
      · simp [normOk, h] at hp
      · exact h
    rw [processParts, if_neg (by simpa using hc), if_neg (by simp [ht]),
      processParts_allFail tOk tErr rest cache (fun q hq => hall q (by simp [hq]))]
    simp

/-! ### Range selection and sorting facts -/

theorem mem_listParts {frags : List FragFile} {s e : String} {p : FragFile} :
    p ∈ listParts frags s e ↔
      p ∈ frags ∧ supportedExt p.ext = true ∧ strLe s p.stem = true ∧ strLe p.stem e = true := by
  unfold listParts sortFiles
  rw [List.mem_filter, List.mem_insertionSort]
  simp [and_assoc]

theorem sorted_sortStems (l : List String) :
    (sortStems l).Sorted (fun a b => strLe a b = true) :=
  List.sorted_insertionSort _ l

theorem mem_sortStems {l : List String} {x : String} : x ∈ sortStems l ↔ x ∈ l :=
  List.mem_insertionSort _

/-! ### Behaviour of the assembler -/

theorem build_notReady (tOk : FragFile → Bool) (tErr : FragFile → String) (disk : Disk)
    (h : disk.meta.start_seq = none) :
    build_final_wav tOk tErr disk = (disk, .error .notReady) := by
  simp only [build_final_wav, h]

theorem build_ok (tOk : FragFile → Bool) (tErr : FragFile → String) (disk : Disk) (s e : String)
    (hs : disk.meta.start_seq = some s) (he : disk.meta.end_seq = some e)
    (hnd : ((listParts disk.frags s e).map FragFile.stem).Nodup)
    (hconv : (listParts disk.frags s e).filter (normOk disk.wavCache tOk) ≠ []) :
    build_final_wav tOk tErr disk =
      ({ disk with
          wavCache := disk.wavCache ++
            ((listParts disk.frags s e).filter
              (fun p => !decide (p.stem ∈ disk.wavCache) && tOk p)).map FragFile.stem,
          ffmpegLog := disk.ffmpegLog ++
            (listParts disk.frags s e).filter (fun p => !decide (p.stem ∈ disk.wavCache)),
          finalWav := some (sortStems
            (((listParts disk.frags s e).filter (normOk disk.wavCache tOk)).map FragFile.stem)) },
       .ok (sortStems (((listParts disk.frags s e).filter (normOk disk.wavCache tOk)).map FragFile.stem),
            ((listParts disk.frags s e).filter (fun p => !normOk disk.wavCache tOk p)).map
              (fun p => (p.fname, tErr p)))) := by
  have hparts : ¬ listParts disk.frags s e = [] := by
    intro h
    rw [h] at hconv
    exact hconv rfl
  have hfx : (sortStems (((listParts disk.frags s e).filter (normOk disk.wavCache tOk)).map
        FragFile.stem)).filter (fun st => strLe s st && strLe st e) =
      sortStems (((listParts disk.frags s e).filter (normOk disk.wavCache tOk)).map FragFile.stem) := by
    rw [List.filter_eq_self]
    intro st hst
    rw [mem_sortStems, List.mem_map] at hst
    obtain ⟨p, hp, rfl⟩ := hst
    have hm := mem_listParts.mp (List.mem_of_mem_filter hp)
    simp [hm.2.2.1, hm.2.2.2]
  have hcne : ¬ ((listParts disk.frags s e).filter (normOk disk.wavCache tOk)).map FragFile.stem = [] := by
    simpa using hconv
  simp only [build_final_wav, hs, he]
  rw [if_neg hparts, processParts_spec tOk tErr _ _ hnd]
  simp only [if_neg hcne, hfx]

theorem build_final_wav_fst (tOk : FragFile → Bool) (tErr : FragFile → String) (disk : Disk) :
    (build_final_wav tOk tErr disk).1.meta = disk.meta ∧
    (build_final_wav tOk tErr disk).1.frags = disk.frags := by
  rcases h1 : disk.meta.start_seq with _ | s
  · simp [build_final_wav, h1]
  rcases h2 : disk.meta.end_seq with _ | e
  · simp [build_final_wav, h1, h2]
  simp only [build_final_wav, h1, h2]
  split
  · simp
  · split <;> simp

/-! ### Growth of the normalized-segment cache -/

theorem cacheAfter_mem (tOk : FragFile → Bool) (parts : List FragFile) (cache : List String)
    (hnd : (parts.map FragFile.stem).Nodup) (p : FragFile) (hp : p ∈ parts) :
    decide (p.stem ∈ cache ++ (parts.filter
        (fun q => !decide (q.stem ∈ cache) && tOk q)).map FragFile.stem)
      = normOk cache tOk p := by
  by_cases hc : p.stem ∈ cache
  · simp [normOk, hc, List.mem_append]
  · by_cases ht : tOk p = true
    · have hm : p.stem ∈ (parts.filter
          (fun q => !decide (q.stem ∈ cache) && tOk q)).map FragFile.stem :=
        List.mem_map_of_mem _ (List.mem_filter.mpr ⟨hp, by simp [hc, ht]⟩)
      simp [normOk, hc, ht, List.mem_append, hm]
    · have hnm : p.stem ∉ (parts.filter
          (fun q => !decide (q.stem ∈ cache) && tOk q)).map FragFile.stem := by
        intro hmem
        rw [List.mem_map] at hmem
        obtain ⟨q, hqf, hqe⟩ := hmem
        have hq := List.mem_of_mem_filter hqf
        have hqp := List.inj_on_of_nodup_map hnd hq hp hqe
        subst hqp
        have hcond := (List.mem_filter.mp hqf).2
        simp [ht] at hcond
      simp [normOk, hc, ht, List.mem_append, hnm]

theorem normOk_cacheAfter (tOk : FragFile → Bool) (parts : List FragFile) (cache : List String)
    (hnd : (parts.map FragFile.stem).Nodup) (p : FragFile) (hp : p ∈ parts) :
    normOk (cache ++ (parts.filter
        (fun q => !decide (q.stem ∈ cache) && tOk q)).map FragFile.stem) tOk p
      = normOk cache tOk p := by
  rw [normOk, cacheAfter_mem tOk parts cache hnd p hp]
  cases h : tOk p <;> simp [normOk, h]

/-! ### Behaviour of the upload route -/

theorem persistFrag_meta (disk : Disk) (p : FragFile) : (persistFrag disk p).meta = disk.meta := by
  unfold persistFrag
  split <;> rfl

theorem persistFrag_mem (disk : Disk) (p : FragFile) : p ∈ (persistFrag disk p).frags := by
  unfold persistFrag
  split
  · assumption
  · simp

theorem persistFrag_finalWav (disk : Disk) (p : FragFile) :
    (persistFrag disk p).finalWav = disk.finalWav := by
  unfold persistFrag
  split <;> rfl

theorem persistFrag_ffmpegLog (disk : Disk) (p : FragFile) :
    (persistFrag disk p).ffmpegLog = disk.ffmpegLog := by
  unfold persistFrag
  split <;> rfl

theorem upload_ended (tOk : FragFile → Bool) (tErr : FragFile → String) (fa : Bool)
    (disk : Disk) (seq container : String) (jr : Except Unit HttpResp)
    (h : disk.meta.state = .ended) :
    upload_chunk tOk tErr fa disk seq container jr =
      ⟨persistFrag disk ⟨seq, extOf container⟩, .decision "continue", false, false, false⟩ := by
  simp only [upload_chunk]
  rw [if_pos (by rw [persistFrag_meta]; exact h)]

theorem upload_chunk_meta (tOk : FragFile → Bool) (tErr : FragFile → String) (fa : Bool)
    (disk : Disk) (seq container : String) (jr : Except Unit HttpResp) :
    (upload_chunk tOk tErr fa disk seq container jr).disk.meta =
      metaStep disk.meta seq (send_to_judge jr) := by
  simp only [upload_chunk, metaStep]
  have hm := persistFrag_meta disk ⟨seq, extOf container⟩
  by_cases h1 : disk.meta.state = .ended
  · rw [if_pos (by rw [hm]; exact h1), if_pos h1, hm]
  · rw [if_neg (by rw [hm]; exact h1), if_neg h1]
    by_cases h2 : send_to_judge jr = "start" ∧ disk.meta.state = .waiting
    · rw [if_pos (by rw [hm]; exact h2), if_pos h2]
      simp [hm]
    · rw [if_neg (by rw [hm]; exact h2), if_neg h2]
      by_cases h3 : send_to_judge jr = "end"
      · rw [if_pos h3, if_pos h3]
        rcases hb : build_final_wav tOk tErr
            { persistFrag disk ⟨seq, extOf container⟩ with
              meta := ⟨.ended, (persistFrag disk ⟨seq, extOf container⟩).meta.start_seq, some seq⟩ }
          with ⟨d3, res⟩
        have hmeta := (build_final_wav_fst tOk tErr
          { persistFrag disk ⟨seq, extOf container⟩ with
            meta := ⟨.ended, (persistFrag disk ⟨seq, extOf container⟩).meta.start_seq, some seq⟩ }).1
        rw [hb] at hmeta
        simp [hm] at hmeta
        cases res <;> simp [hb, hmeta]
      · rw [if_neg h3, if_neg h3, hm]

theorem upload_end_branch (tOk : FragFile → Bool) (tErr : FragFile → String) (fa : Bool)
    (disk : Disk) (seq container : String) (jr : Except Unit HttpResp)
    (hne : disk.meta.state ≠ .ended) (hj : send_to_judge jr = "end") :
    upload_chunk tOk tErr fa disk seq container jr =
      (match build_final_wav tOk tErr { persistFrag disk ⟨seq, extOf container⟩ with
          meta := ⟨.ended, disk.meta.start_seq, some seq⟩ } with
      | (d₃, .ok (_, skipped)) => ⟨d₃, .endResp fa skipped, true, true, true⟩
      | (d₃, .error er) => ⟨d₃, .uploadFailed er.msg, true, true, false⟩) := by
  have hm := persistFrag_meta disk ⟨seq, extOf container⟩
  simp only [upload_chunk]
  rw [if_neg (by rw [hm]; exact hne), hj,
    if_neg (by rintro ⟨hcon, -⟩; exact absurd hcon (by decide)), if_pos rfl, hm]

/-! ### The metadata state machine over upload traces -/

theorem metaStep_inv (m : SessionMeta) (seq dec : String) (h : MetaInv m) :
    MetaInv (metaStep m seq dec) ∧
    (∀ x, m.start_seq = some x → (metaStep m seq dec).start_seq = some x) ∧
    (∀ x, m.end_seq = some x → (metaStep m seq dec).end_seq = some x) := by
  obtain ⟨hw, he⟩ := h
  unfold metaStep MetaInv
  split_ifs with h1 h2 h3
  · exact ⟨⟨hw, he⟩, fun x hx => hx, fun x hx => hx⟩
  · refine ⟨⟨fun f => f, fun hcon => ?_⟩, fun x hx => ?_, fun x hx => hx⟩
    · have h5 := he hcon
      rw [h2.2] at h5
      cases h5
    · rw [hw h2.2] at hx
      cases hx
  · exact ⟨⟨fun f => False.elim f, fun _ => rfl⟩, fun x hx => hx,
      fun x hx => absurd (he (by rw [hx]; simp)) h1⟩
  · exact ⟨⟨hw, he⟩, fun x hx => hx, fun x hx => hx⟩

theorem runUploads_append : ∀ (as bs : List Call) (d : Disk),
    runUploads d (as ++ bs) = runUploads (runUploads d as) bs
  | [], _, _ => rfl
  | c :: as, bs, d => by
    rw [List.cons_append, runUploads, runUploads, runUploads_append as bs]

theorem runUploads_inv : ∀ (calls : List Call) (d : Disk), MetaInv d.meta →
    MetaInv (runUploads d calls).meta ∧
    (∀ x, d.meta.start_seq = some x → (runUploads d calls).meta.start_seq = some x) ∧
    (∀ x, d.meta.end_seq = some x → (runUploads d calls).meta.end_seq = some x)
  | [], _, h => ⟨h, fun _ hx => hx, fun _ hx => hx⟩
  | c :: cs, d, h => by
    rw [runUploads]
    have hstep := upload_chunk_meta c.tOk c.tErr c.finalAck d c.seq c.container c.judgeResp
    have hm := metaStep_inv d.meta c.seq (send_to_judge c.judgeResp) h
    have ih := runUploads_inv cs
      (upload_chunk c.tOk c.tErr c.finalAck d c.seq c.container c.judgeResp).disk
      (by rw [hstep]; exact hm.1)
    refine ⟨ih.1, fun x hx => ih.2.1 x ?_, fun x hx => ih.2.2 x ?_⟩
    · rw [hstep]
      exact hm.2.1 x hx
    · rw [hstep]
      exact hm.2.2 x hx

/-! ### The claims -/

/-- Claim C1: for a session whose metadata has both boundaries set, assembly
selects exactly the stored fragments of a supported raw container (ogg or
webm) whose seq lies lexicographically in the inclusive range
`[start_seq, end_seq]`, and (when every selected fragment normalizes) the
output is their normalized segments in ascending lexicographic seq order,
with out-of-range fragments excluded. -/
theorem C1_range_correctness (tOk : FragFile → Bool) (tErr : FragFile → String) (disk : Disk)
    (s e : String)
    (hs : disk.meta.start_seq = some s) (he : disk.meta.end_seq = some e)
    (hnd : ((listParts disk.frags s e).map FragFile.stem).Nodup)
    (hne : listParts disk.frags s e ≠ [])
    (hok : ∀ p ∈ listParts disk.frags s e, normOk disk.wavCache tOk p = true) :
    (build_final_wav tOk tErr disk).2 =
        .ok (sortStems ((listParts disk.frags s e).map FragFile.stem), []) ∧
      (∀ st, st ∈ sortStems ((listParts disk.frags s e).map FragFile.stem) ↔
        ∃ p, p ∈ disk.frags ∧ supportedExt p.ext = true ∧
          strLe s p.stem = true ∧ strLe p.stem e = true ∧ p.stem = st) ∧
      (sortStems ((listParts disk.frags s e).map FragFile.stem)).Sorted
        (fun a b => strLe a b = true) := by
  have hfeq : (listParts disk.frags s e).filter (normOk disk.wavCache tOk)
      = listParts disk.frags s e := List.filter_eq_self.mpr hok
  have hconv : (listParts disk.frags s e).filter (normOk disk.wavCache tOk) ≠ [] := by
    rw [hfeq]
    exact hne
  have hskip : (listParts disk.frags s e).filter (fun p => !normOk disk.wavCache tOk p) = [] := by
    rw [List.filter_eq_nil_iff]
    intro p hp
    simp [hok p hp]
  refine ⟨?_, ?_, sorted_sortStems _⟩
  · rw [build_ok tOk tErr disk s e hs he hnd hconv]
    simp [hfeq, hskip]
  · intro st
    rw [mem_sortStems, List.mem_map]
    constructor
    · rintro ⟨p, hp, rfl⟩
      have hm := mem_listParts.mp hp
      exact ⟨p, hm.1, hm.2.1, hm.2.2.1, hm.2.2.2, rfl⟩
    · rintro ⟨p, h1, h2, h3, h4, rfl⟩
      exact ⟨p, mem_listParts.mpr ⟨h1, h2, h3, h4⟩, rfl⟩

/-- Witness for C1 on the spec scenario: fragments 001..008 with range
003..007, every fragment decoding; the output is 003..007 in order, with
002 and 008 excluded. -/
theorem C1_range_correctness_witness :
    ((build_final_wav (fun _ => true) (fun _ => "") demoDisk).2 =
        .ok (sortStems ((listParts demoDisk.frags "003" "007").map FragFile.stem), []) ∧
      (∀ st, st ∈ sortStems ((listParts demoDisk.frags "003" "007").map FragFile.stem) ↔
        ∃ p, p ∈ demoDisk.frags ∧ supportedExt p.ext = true ∧
          strLe "003" p.stem = true ∧ strLe p.stem "007" = true ∧ p.stem = st) ∧
      (sortStems ((listParts demoDisk.frags "003" "007").map FragFile.stem)).Sorted
        (fun a b => strLe a b = true)) ∧
    sortStems ((listParts demoDisk.frags "003" "007").map FragFile.stem) =
      ["003", "004", "005", "006", "007"] :=
  ⟨C1_range_correctness (fun _ => true) (fun _ => "") demoDisk "003" "007" rfl rfl
    (by decide) (by decide) (by decide), by decide⟩

/-- Claim C2: once a session is `ended`, a further upload still persists the
fragment, answers `continue`, does not consult the decision authority, does
not mutate the session metadata, and does not re-trigger assembly. -/
theorem C2_terminal_state (tOk : FragFile → Bool) (tErr : FragFile → String) (fa : Bool)
    (disk : Disk) (seq container : String) (jr : Except Unit HttpResp)
    (h : disk.meta.state = .ended) :
    (upload_chunk tOk tErr fa disk seq container jr).resp = .decision "continue" ∧
    (upload_chunk tOk tErr fa disk seq container jr).judgeCalled = false ∧
    (upload_chunk tOk tErr fa disk seq container jr).assembleCalled = false ∧
    (upload_chunk tOk tErr fa disk seq container jr).finalSendCalled = false ∧
    (upload_chunk tOk tErr fa disk seq container jr).disk.meta = disk.meta ∧
    (upload_chunk tOk tErr fa disk seq container jr).disk.finalWav = disk.finalWav ∧
    (⟨seq, extOf container⟩ : FragFile) ∈ (upload_chunk tOk tErr fa disk seq container jr).disk.frags := by
  rw [upload_ended tOk tErr fa disk seq container jr h]
  exact ⟨rfl, rfl, rfl, rfl, persistFrag_meta disk _, persistFrag_finalWav disk _,
    persistFrag_mem disk _⟩

/-- Witness for C2: uploading into an ended session. -/
theorem C2_terminal_state_witness :
    (upload_chunk (fun _ => true) (fun _ => "") true endedDisk "003" "ogg" (.error ())).resp =
        .decision "continue" ∧
    (upload_chunk (fun _ => true) (fun _ => "") true endedDisk "003" "ogg" (.error ())).judgeCalled =
        false ∧
    (upload_chunk (fun _ => true) (fun _ => "") true endedDisk "003" "ogg" (.error ())).assembleCalled =
        false ∧
    (upload_chunk (fun _ => true) (fun _ => "") true endedDisk "003" "ogg" (.error ())).finalSendCalled =
        false ∧
    (upload_chunk (fun _ => true) (fun _ => "") true endedDisk "003" "ogg" (.error ())).disk.meta =
        endedDisk.meta ∧
    (upload_chunk (fun _ => true) (fun _ => "") true endedDisk "003" "ogg" (.error ())).disk.finalWav =
        endedDisk.finalWav ∧
    (⟨"003", extOf "ogg"⟩ : FragFile) ∈
      (upload_chunk (fun _ => true) (fun _ => "") true endedDisk "003" "ogg" (.error ())).disk.frags :=
  C2_terminal_state (fun _ => true) (fun _ => "") true endedDisk "003" "ogg" (.error ()) rfl

/-- Claim C3: the per-fragment decision call returns the verdict `continue`
on transport failure or timeout, on a response whose body is not JSON, and
on an unrecognized decision value; being a total function into verdict
strings, it never raises. -/
theorem C3_fail_open (r : Except Unit HttpResp)
    (h : r = .error () ∨ ∃ resp, r = .ok resp ∧ resp.status ≠ 204 ∧
      (strStartsWith resp.contentType "application/json" = false ∨
       resp.jsonDecision = none ∨
       ∃ js, resp.jsonDecision = some js ∧ strToLower (js.getD "") ≠ "start" ∧
         strToLower (js.getD "") ≠ "end")) :
    send_to_judge r = "continue" := by
  rcases h with h | ⟨resp, rfl, h204, hcase⟩
  · rw [h]
    rfl
  · simp only [send_to_judge]
    rw [if_neg h204]
    rcases hcase with hct | hjs | ⟨js, hjs, h1, h2⟩
    · simp [hct]
    · by_cases hsw : strStartsWith resp.contentType "application/json" <;> simp [hsw, hjs]
    · by_cases hsw : strStartsWith resp.contentType "application/json" <;> simp [hsw, hjs, h1, h2]

/-- Witness for C3: a transport failure, a 500 with an unrecognized
decision, and a non-JSON body all yield `continue`. -/
theorem C3_fail_open_witness :
    send_to_judge (.error ()) = "continue" ∧
    send_to_judge (.ok ⟨500, "application/json", some (some "oops")⟩) = "continue" ∧
    send_to_judge (.ok ⟨200, "text/plain", none⟩) = "continue" :=
  ⟨C3_fail_open _ (Or.inl rfl),
   C3_fail_open _ (Or.inr ⟨_, rfl, by decide, Or.inr (Or.inr ⟨_, rfl, by decide, by decide⟩)⟩),
   C3_fail_open _ (Or.inr ⟨_, rfl, by decide, Or.inl (by decide)⟩)⟩

/-- Claim C4: when at least one in-range fragment normalizes and at least
one fails, assembly succeeds; the output is exactly the successfully
normalized segments in ascending seq order, and the skip list names exactly
the failed fragments with their error details. -/
theorem C4_failure_tolerance (tOk : FragFile → Bool) (tErr : FragFile → String) (disk : Disk)
    (s e : String)
    (hs : disk.meta.start_seq = some s) (he : disk.meta.end_seq = some e)
    (hnd : ((listParts disk.frags s e).map FragFile.stem).Nodup)
    (hsucc : ∃ p ∈ listParts disk.frags s e, normOk disk.wavCache tOk p = true)
    (hfail : ∃ p ∈ listParts disk.frags s e, normOk disk.wavCache tOk p = false) :
    (build_final_wav tOk tErr disk).2 =
        .ok (sortStems (((listParts disk.frags s e).filter
              (normOk disk.wavCache tOk)).map FragFile.stem),
             ((listParts disk.frags s e).filter (fun p => !normOk disk.wavCache tOk p)).map
               (fun p => (p.fname, tErr p))) ∧
      ((listParts disk.frags s e).filter (fun p => !normOk disk.wavCache tOk p)) ≠ [] ∧
      (sortStems (((listParts disk.frags s e).filter
        (normOk disk.wavCache tOk)).map FragFile.stem)).Sorted (fun a b => strLe a b = true) := by
  obtain ⟨p, hp, hpok⟩ := hsucc
  obtain ⟨q, hq, hqfail⟩ := hfail
  have hconv : (listParts disk.frags s e).filter (normOk disk.wavCache tOk) ≠ [] :=
    List.ne_nil_of_mem (List.mem_filter.mpr ⟨hp, hpok⟩)
  refine ⟨?_, ?_, sorted_sortStems _⟩
  · rw [build_ok tOk tErr disk s e hs he hnd hconv]
  · exact List.ne_nil_of_mem (List.mem_filter.mpr ⟨hq, by simp [hqfail]⟩)

/-- Witness for C4 on the spec scenario: five fragments in range, exactly
one (004) failing; the output holds the other four in order and the skip
list names 004 with its error. -/
theorem C4_failure_tolerance_witness :
    ((build_final_wav (fun p => !(p.stem == "004")) (fun _ => "boom") demoDisk).2 =
        .ok (sortStems (((listParts demoDisk.frags "003" "007").filter
              (normOk demoDisk.wavCache (fun p => !(p.stem == "004")))).map FragFile.stem),
             ((listParts demoDisk.frags "003" "007").filter
               (fun p => !normOk demoDisk.wavCache (fun p => !(p.stem == "004")) p)).map
               (fun p => (p.fname, "boom"))) ∧
      ((listParts demoDisk.frags "003" "007").filter
        (fun p => !normOk demoDisk.wavCache (fun p => !(p.stem == "004")) p)) ≠ [] ∧
      (sortStems (((listParts demoDisk.frags "003" "007").filter
        (normOk demoDisk.wavCache (fun p => !(p.stem == "004")))).map FragFile.stem)).Sorted
        (fun a b => strLe a b = true)) ∧
    (build_final_wav (fun p => !(p.stem == "004")) (fun _ => "boom") demoDisk).2 =
      .ok (["003", "005", "006", "007"], [("004.ogg", "boom")]) :=
  ⟨C4_failure_tolerance (fun p => !(p.stem == "004")) (fun _ => "boom") demoDisk "003" "007"
    rfl rfl (by decide) (by decide) (by decide), by decide⟩

/-- Claim C5: when every in-range fragment fails to normalize, assembly
fails with the total-decode-failure error and the final output on disk is
left unchanged. -/
theorem C5_total_failure (tOk : FragFile → Bool) (tErr : FragFile → String) (disk : Disk)
    (s e : String)
    (hs : disk.meta.start_seq = some s) (he : disk.meta.end_seq = some e)
    (hne : listParts disk.frags s e ≠ [])
    (hall : ∀ p ∈ listParts disk.frags s e, normOk disk.wavCache tOk p = false) :
    (build_final_wav tOk tErr disk).2 = .error .totalDecodeFailure ∧
      (build_final_wav tOk tErr disk).1.finalWav = disk.finalWav := by
  simp only [build_final_wav, hs, he]
  rw [if_neg hne, processParts_allFail tOk tErr _ _ hall]
  simp

/-- Witness for C5: every fragment fails; the previously assembled output
survives untouched. -/
theorem C5_total_failure_witness :
    ((build_final_wav (fun _ => false) (fun _ => "bad") demoDiskPrev).2 =
        .error .totalDecodeFailure ∧
      (build_final_wav (fun _ => false) (fun _ => "bad") demoDiskPrev).1.finalWav =
        demoDiskPrev.finalWav) ∧
    demoDiskPrev.finalWav = some ["prev"] :=
  ⟨C5_total_failure (fun _ => false) (fun _ => "bad") demoDiskPrev "003" "007" rfl rfl
    (by decide) (by decide), by decide⟩

/-- Claim C6: an `end` verdict arriving while the state is still `waiting`
(start never recorded) is honored: the metadata becomes `ended` with
`end_seq` set and `start_seq` still null, assembly is triggered and fails
with the not-ready error (both boundaries being a precondition of
assembly), which surfaces as the 500 error response. -/
theorem C6_end_while_waiting (tOk : FragFile → Bool) (tErr : FragFile → String) (fa : Bool)
    (disk : Disk) (seq container : String) (jr : Except Unit HttpResp)
    (hw : disk.meta.state = .waiting) (hs0 : disk.meta.start_seq = none)
    (hj : send_to_judge jr = "end") :
    (upload_chunk tOk tErr fa disk seq container jr).disk.meta =
        ⟨.ended, none, some seq⟩ ∧
      (upload_chunk tOk tErr fa disk seq container jr).assembleCalled = true ∧
      (upload_chunk tOk tErr fa disk seq container jr).resp =
        .uploadFailed (BuildErr.msg .notReady) ∧
      (∀ d : Disk, d.meta.start_seq = none → (build_final_wav tOk tErr d).2 = .error .notReady) := by
  have hm := persistFrag_meta disk ⟨seq, extOf container⟩
  have hstep : (upload_chunk tOk tErr fa disk seq container jr).disk.meta =
      ⟨.ended, none, some seq⟩ := by
    rw [upload_chunk_meta, hj, metaStep]
    rw [if_neg (by rw [hw]; intro hcon; cases hcon),
      if_neg (by rintro ⟨hcon, -⟩; exact absurd hcon (by decide)), if_pos rfl, hs0]
  refine ⟨hstep, ?_, ?_, fun d hd => by rw [build_notReady tOk tErr d hd]⟩ <;>
  · simp only [upload_chunk]
    rw [if_neg (by rw [hm, hw]; intro hcon; cases hcon), hj,
      if_neg (by rintro ⟨hcon, -⟩; exact absurd hcon (by decide)), if_pos rfl,
      build_notReady tOk tErr _ (by simp [hm, hs0])]

/-- Witness for C6: an `end` verdict on a fresh waiting session. -/
theorem C6_end_while_waiting_witness :
    (upload_chunk (fun _ => true) (fun _ => "") true initDisk "001" "ogg" judgeEnd).disk.meta =
        ⟨.ended, none, some "001"⟩ ∧
      (upload_chunk (fun _ => true) (fun _ => "") true initDisk "001" "ogg" judgeEnd).assembleCalled =
        true ∧
      (upload_chunk (fun _ => true) (fun _ => "") true initDisk "001" "ogg" judgeEnd).resp =
        .uploadFailed (BuildErr.msg .notReady) ∧
      (∀ d : Disk, d.meta.start_seq = none →
        (build_final_wav (fun _ => true) (fun _ => "") d).2 = .error .notReady) :=
  C6_end_while_waiting (fun _ => true) (fun _ => "") true initDisk "001" "ogg" judgeEnd
    rfl rfl (by decide)

/-- Claim C7: over every sequence of upload requests starting from a fresh
session, once `start_seq` is non-null it never changes, and once `end_seq`
is non-null it never changes. -/
theorem C7_boundaries_immutable (calls rest : List Call) :
    (∀ x, (runUploads initDisk calls).meta.start_seq = some x →
      (runUploads initDisk (calls ++ rest)).meta.start_seq = some x) ∧
    (∀ x, (runUploads initDisk calls).meta.end_seq = some x →
      (runUploads initDisk (calls ++ rest)).meta.end_seq = some x) := by
  have hInv : MetaInv (runUploads initDisk calls).meta :=
    (runUploads_inv calls initDisk ⟨fun _ => rfl, fun hcon => absurd rfl hcon⟩).1
  rw [runUploads_append]
  exact ⟨(runUploads_inv rest _ hInv).2.1, (runUploads_inv rest _ hInv).2.2⟩

/-- Witness for C7: after a `start` verdict records `start_seq = "001"`, a
further upload (here with a failing judge round-trip) leaves it intact. -/
theorem C7_boundaries_immutable_witness :
    (runUploads initDisk [callStart]).meta.start_seq = some "001" ∧
    (runUploads initDisk ([callStart] ++ [callCont])).meta.start_seq = some "001" :=
  ⟨by decide, (C7_boundaries_immutable [callStart] [callCont]).1 "001" (by decide)⟩

/-- Claim C8 as stated is false: an upload whose `end` verdict triggers a
failing assembly returns the 500 `upload_failed` response, which carries no
`decision` field.  Concretely: an `end` verdict on a fresh waiting session
(no start boundary) produces a response without a decision. -/
theorem C8_counterexample :
    respHasDecision (upload_chunk (fun _ => true) (fun _ => "") true initDisk "001" "ogg"
      (.ok ⟨200, "application/json", some (some "end")⟩)).resp = false := by decide

/-- Claim C8, amended: every upload response carries a decision field
except the 500 error response of a failed assembly, which can only arise
when the verdict was `end`. -/
theorem C8_decision_or_error (tOk : FragFile → Bool) (tErr : FragFile → String) (fa : Bool)
    (disk : Disk) (seq container : String) (jr : Except Unit HttpResp) :
    respHasDecision (upload_chunk tOk tErr fa disk seq container jr).resp = true ∨
      (send_to_judge jr = "end" ∧ ∃ er : BuildErr,
        (upload_chunk tOk tErr fa disk seq container jr).resp = .uploadFailed er.msg) := by
  simp only [upload_chunk]
  by_cases h1 : (persistFrag disk ⟨seq, extOf container⟩).meta.state = .ended
  · rw [if_pos h1]
    left
    rfl
  · rw [if_neg h1]
    by_cases h2 : send_to_judge jr = "start" ∧
        (persistFrag disk ⟨seq, extOf container⟩).meta.state = .waiting
    · rw [if_pos h2]
      left
      rfl
    · rw [if_neg h2]
      by_cases h3 : send_to_judge jr = "end"
      · rw [if_pos h3]
        rcases hb : build_final_wav tOk tErr
            { persistFrag disk ⟨seq, extOf container⟩ with
              meta := ⟨.ended, (persistFrag disk ⟨seq, extOf container⟩).meta.start_seq,
                some seq⟩ } with ⟨d3, res⟩
        cases res with
        | ok out =>
          left
          rfl
        | error er =>
          right
          exact ⟨h3, er, rfl⟩
      · rw [if_neg h3]
        left
        rfl

/-- Claim C9: normalization is idempotent.  Re-running assembly after a
successful run produces the same output, and the transcoder is re-invoked
only on the fragments that failed the first time: no fragment whose
normalized segment already exists is re-transcoded. -/
theorem C9_idempotent_normalization (tOk : FragFile → Bool) (tErr : FragFile → String)
    (disk : Disk) (s e : String)
    (hs : disk.meta.start_seq = some s) (he : disk.meta.end_seq = some e)
    (hnd : ((listParts disk.frags s e).map FragFile.stem).Nodup)
    (hconv : (listParts disk.frags s e).filter (normOk disk.wavCache tOk) ≠ []) :
    (build_final_wav tOk tErr (build_final_wav tOk tErr disk).1).2 =
        (build_final_wav tOk tErr disk).2 ∧
      (build_final_wav tOk tErr (build_final_wav tOk tErr disk).1).1.ffmpegLog =
        (build_final_wav tOk tErr disk).1.ffmpegLog ++
          (listParts disk.frags s e).filter (fun p => !normOk disk.wavCache tOk p) := by
  have hfilt : (listParts disk.frags s e).filter (normOk (disk.wavCache ++
        ((listParts disk.frags s e).filter
          (fun q => !decide (q.stem ∈ disk.wavCache) && tOk q)).map FragFile.stem) tOk)
      = (listParts disk.frags s e).filter (normOk disk.wavCache tOk) :=
    List.filter_congr (fun p hp => normOk_cacheAfter tOk _ disk.wavCache hnd p hp)
  have hfilt' : (listParts disk.frags s e).filter (fun p => !normOk (disk.wavCache ++
        ((listParts disk.frags s e).filter
          (fun q => !decide (q.stem ∈ disk.wavCache) && tOk q)).map FragFile.stem) tOk p)
      = (listParts disk.frags s e).filter (fun p => !normOk disk.wavCache tOk p) :=
    List.filter_congr (fun p hp => by rw [normOk_cacheAfter tOk _ disk.wavCache hnd p hp])
  have hinv : (listParts disk.frags s e).filter (fun p => !decide (p.stem ∈ disk.wavCache ++
        ((listParts disk.frags s e).filter
          (fun q => !decide (q.stem ∈ disk.wavCache) && tOk q)).map FragFile.stem))
      = (listParts disk.frags s e).filter (fun p => !normOk disk.wavCache tOk p) :=
    List.filter_congr (fun p hp => by rw [cacheAfter_mem tOk _ disk.wavCache hnd p hp])
  rw [build_ok tOk tErr disk s e hs he hnd hconv]
  dsimp only
  rw [build_ok tOk tErr _ s e (by simp [hs]) (by simp [he]) (by simpa using hnd)
    (by dsimp only; rw [hfilt]; exact hconv)]
  dsimp only
  rw [hfilt, hfilt', hinv]
  exact ⟨rfl, rfl⟩

/-- Witness for C9: with fragment 004 failing, a second assembly run yields
the same output and re-invokes the transcoder only on 004. -/
theorem C9_idempotent_normalization_witness :
    (build_final_wav (fun p => !(p.stem == "004")) (fun _ => "boom")
        (build_final_wav (fun p => !(p.stem == "004")) (fun _ => "boom") demoDisk).1).2 =
      (build_final_wav (fun p => !(p.stem == "004")) (fun _ => "boom") demoDisk).2 ∧
    (build_final_wav (fun p => !(p.stem == "004")) (fun _ => "boom")
        (build_final_wav (fun p => !(p.stem == "004")) (fun _ => "boom") demoDisk).1).1.ffmpegLog =
      (build_final_wav (fun p => !(p.stem == "004")) (fun _ => "boom") demoDisk).1.ffmpegLog ++
        (listParts demoDisk.frags "003" "007").filter
          (fun p => !normOk demoDisk.wavCache (fun p => !(p.stem == "004")) p) :=
  C9_idempotent_normalization (fun p => !(p.stem == "004")) (fun _ => "boom") demoDisk
    "003" "007" rfl rfl (by decide) (by decide)

/-- Claim C10: an `end` verdict persists the ended metadata before assembly
is attempted; if assembly fails, the error response does not roll the state
back, so every later upload for the session answers `continue` without
consulting the decision authority or re-triggering assembly. -/
theorem C10_no_rollback (tOk : FragFile → Bool) (tErr : FragFile → String)
    (fa : Bool) (disk : Disk) (seq container : String) (jr : Except Unit HttpResp)
    (hne : disk.meta.state ≠ .ended) (hj : send_to_judge jr = "end") :
    (upload_chunk tOk tErr fa disk seq container jr).disk.meta =
        ⟨.ended, disk.meta.start_seq, some seq⟩ ∧
      (∀ er : BuildErr,
        (build_final_wav tOk tErr { persistFrag disk ⟨seq, extOf container⟩ with
            meta := ⟨.ended, disk.meta.start_seq, some seq⟩ }).2 = .error er →
          (upload_chunk tOk tErr fa disk seq container jr).resp = .uploadFailed er.msg) ∧
      (∀ (tOk₂ : FragFile → Bool) (tErr₂ : FragFile → String) (fa₂ : Bool)
          (seq₂ container₂ : String) (jr₂ : Except Unit HttpResp),
        (upload_chunk tOk₂ tErr₂ fa₂ (upload_chunk tOk tErr fa disk seq container jr).disk
            seq₂ container₂ jr₂).resp = .decision "continue" ∧
          (upload_chunk tOk₂ tErr₂ fa₂ (upload_chunk tOk tErr fa disk seq container jr).disk
            seq₂ container₂ jr₂).judgeCalled = false ∧
          (upload_chunk tOk₂ tErr₂ fa₂ (upload_chunk tOk tErr fa disk seq container jr).disk
            seq₂ container₂ jr₂).assembleCalled = false) := by
  have hmeta : (upload_chunk tOk tErr fa disk seq container jr).disk.meta =
      ⟨.ended, disk.meta.start_seq, some seq⟩ := by
    rw [upload_chunk_meta, hj, metaStep]
    rw [if_neg hne, if_neg (by rintro ⟨hcon, -⟩; exact absurd hcon (by decide)), if_pos rfl]
  refine ⟨hmeta, ?_, ?_⟩
  · intro er herr
    rw [upload_end_branch tOk tErr fa disk seq container jr hne hj]
    rcases hb : build_final_wav tOk tErr
        { persistFrag disk ⟨seq, extOf container⟩ with
          meta := ⟨.ended, disk.meta.start_seq, some seq⟩ } with ⟨d3, res⟩
    rw [hb] at herr
    cases res with
    | ok out => cases herr
    | error er2 =>
      have h6 : er2 = er := by
        injection herr
      rw [h6]
  · intro tOk₂ tErr₂ fa₂ seq₂ container₂ jr₂
    have hend : (upload_chunk tOk tErr fa disk seq container jr).disk.meta.state = .ended := by
      rw [hmeta]
    rw [upload_ended tOk₂ tErr₂ fa₂ _ seq₂ container₂ jr₂ hend]
    exact ⟨rfl, rfl, rfl⟩

/-- Witness for C10: an `end` verdict on a fresh waiting session ends it
permanently even though assembly fails with the not-ready error. -/
theorem C10_no_rollback_witness :
    (upload_chunk (fun _ => true) (fun _ => "") true initDisk "001" "ogg" judgeEnd).disk.meta =
        ⟨.ended, initDisk.meta.start_seq, some "001"⟩ ∧
      (∀ er : BuildErr,
        (build_final_wav (fun _ => true) (fun _ => "")
            { persistFrag initDisk ⟨"001", extOf "ogg"⟩ with
              meta := ⟨.ended, initDisk.meta.start_seq, some "001"⟩ }).2 = .error er →
          (upload_chunk (fun _ => true) (fun _ => "") true initDisk "001" "ogg" judgeEnd).resp =
            .uploadFailed er.msg) ∧
      (∀ (tOk₂ : FragFile → Bool) (tErr₂ : FragFile → String) (fa₂ : Bool)
          (seq₂ container₂ : String) (jr₂ : Except Unit HttpResp),
        (upload_chunk tOk₂ tErr₂ fa₂
            (upload_chunk (fun _ => true) (fun _ => "") true initDisk "001" "ogg" judgeEnd).disk
            seq₂ container₂ jr₂).resp = .decision "continue" ∧
          (upload_chunk tOk₂ tErr₂ fa₂
            (upload_chunk (fun _ => true) (fun _ => "") true initDisk "001" "ogg" judgeEnd).disk
            seq₂ container₂ jr₂).judgeCalled = false ∧
          (upload_chunk tOk₂ tErr₂ fa₂
            (upload_chunk (fun _ => true) (fun _ => "") true initDisk "001" "ogg" judgeEnd).disk
            seq₂ container₂ jr₂).assembleCalled = false) :=
  C10_no_rollback (fun _ => true) (fun _ => "") true initDisk "001" "ogg" judgeEnd
    (by decide) (by decide)

end AudioTest
